import Mathlib

/-!
Shallow embedding of the rock-paper-scissors simulator core
(`src/main.ts` of SelfMadeSystem/rockpaperscissorssimulator).

Modelling conventions:
* JavaScript numbers are embedded as `ℚ` (exact arithmetic; every
  comparison the program performs is on finite values).
* `Math.hypot(dx, dy) < ENTITY_SIZE * 2` is embedded as the equivalent
  squared comparison `dx^2 + dy^2 < (ENTITY_SIZE * 2)^2` (both sides of
  the original comparison are nonnegative, so the two are equivalent),
  which keeps the definition executable over `ℚ`.
* Entities are mutable JS objects held by reference in the canonical
  array `entities` and in the per-kind arrays `entityByElement`.  The
  canonical array is append-only and never reordered, so an object
  reference is faithfully represented by its index in the canonical
  list; the per-kind collections are lists of such indices.
* All randomness (`Math.random()`) and trigonometry are explicit
  arguments: an angle is represented by its cosine/sine pair
  `(dc, ds)`, and each `Math.random()` draw is a `ℚ` argument `u`
  (the program guarantees `0 ≤ u < 1`).
-/

namespace RPS

/-- `type Element = "rock" | "paper" | "scissors"` -/
inductive Element : Type
  | rock
  | paper
  | scissors
deriving DecidableEq, Repr, Fintype

/-- `type Entity = { pos: Vec2; vel: Vec2; element: Element }` with `Vec2 = [number, number]`. -/
structure Entity : Type where
  pos : ℚ × ℚ
  vel : ℚ × ℚ
  element : Element
deriving DecidableEq, Repr

/-- `const entityByElement: Record<Element, Entity[]>`, entities represented by
their index in the canonical list. -/
structure ByElement : Type where
  rock : List ℕ
  paper : List ℕ
  scissors : List ℕ
deriving DecidableEq, Repr

def ByElement.get (b : ByElement) : Element → List ℕ
  | .rock => b.rock
  | .paper => b.paper
  | .scissors => b.scissors

def ByElement.set (b : ByElement) : Element → List ℕ → ByElement
  | .rock, l => { b with rock := l }
  | .paper, l => { b with paper := l }
  | .scissors, l => { b with scissors := l }

/-- The mutable module-level state: `const entities: Entity[]` plus
`const entityByElement`. -/
structure Store : Type where
  entities : List Entity
  byElem : ByElement
deriving DecidableEq, Repr

/-- `const ENTITY_SIZE = 10` (the half-extent / radius `r`). -/
def ENTITY_SIZE : ℚ := 10

/-- `const ENTITY_SPEED = 1` (the base speed). -/
def ENTITY_SPEED : ℚ := 1

/-- `canvas.width` — configured to `400`. -/
def width : ℚ := 400

/-- `canvas.height` — configured to `400`. -/
def height : ℚ := 400

/-- `clamp(value, min, max) = Math.max(min, Math.min(max, value))`. -/
def clamp (value lo hi : ℚ) : ℚ := max lo (min hi value)

/-- `createEntity(pos, direction, element)`.  The direction angle is
represented by its cosine/sine pair `(dc, ds)`; `u` is the
`Math.random()` draw used for the speed factor. -/
def createEntity (st : Store) (pos : ℚ × ℚ) (dc ds : ℚ) (u : ℚ) (element : Element) :
    Store :=
  let speed := ENTITY_SPEED * (u * (1 / 2) + 1 / 2)
  let vel : ℚ × ℚ := (dc * speed, ds * speed)
  { entities := st.entities ++ [{ pos := pos, vel := vel, element := element }],
    byElem := st.byElem.set element (st.byElem.get element ++ [st.entities.length]) }

/-- `indexOf` + `splice(index, 1)`: removes the first occurrence of `i`.
When `i` is absent, `indexOf` yields `-1` and `splice(-1, 1)` removes the
LAST element of the array (a JS quirk; this branch is unreachable in the
program, which only ever removes a live member). -/
def spliceOut (l : List ℕ) (i : ℕ) : List ℕ :=
  if i ∈ l then l.erase i else l.dropLast

/-- `changeEntityElement(entity, element)`: remove the entity (index `i`)
from its current kind-collection, update its `element` field, append it to
the new kind-collection. -/
def changeEntityElement (st : Store) (i : ℕ) (element : Element) : Store :=
  match st.entities[i]? with
  | none => st
  | some ent =>
    let b1 := st.byElem.set ent.element (spliceOut (st.byElem.get ent.element) i)
    { entities := st.entities.set i { ent with element := element },
      byElem := b1.set element (b1.get element ++ [i]) }

/-- `updateEntity(entity)` (the motion integrator), parameterised by the
arena bounds `w`, `h` and the half-extent `r` (the program instantiates
`w = h = 400`, `r = ENTITY_SIZE = 10`). -/
def updateEntity (w h r : ℚ) (ent : Entity) : Entity :=
  let px := ent.pos.1 + ent.vel.1
  let py := ent.pos.2 + ent.vel.2
  let px' := if px < r ∨ w - r < px then clamp px r (w - r) else px
  let vx' := if px < r ∨ w - r < px then -ent.vel.1 else ent.vel.1
  let py' := if py < r ∨ h - r < py then clamp py r (h - r) else py
  let vy' := if py < r ∨ h - r < py then -ent.vel.2 else ent.vel.2
  { ent with pos := (px', py'), vel := (vx', vy') }

/-- The kind that beats (dominates) the given kind: rock is beaten by
paper, paper by scissors, scissors by rock (`enemyElement` in
`checkCollision`). -/
def enemyElement : Element → Element
  | .rock => .paper
  | .paper => .scissors
  | .scissors => .rock

/-- Squared Euclidean distance. -/
def sqDist (p q : ℚ × ℚ) : ℚ := (p.1 - q.1) ^ 2 + (p.2 - q.2) ^ 2

/-- The collision test against the entity stored at index `j`:
`Math.hypot(entity.pos[0] - enemy.pos[0], entity.pos[1] - enemy.pos[1]) < ENTITY_SIZE * 2`,
embedded as the equivalent squared comparison. -/
def hits (st : Store) (pos : ℚ × ℚ) (j : ℕ) : Bool :=
  match st.entities[j]? with
  | none => false
  | some enemy => decide (sqDist pos enemy.pos < (ENTITY_SIZE * 2) ^ 2)

/-- `checkCollision(entity)`: scan the dominator kind's collection in
insertion order; on the first member within range, convert the entity to
that member's kind and stop (`break`). -/
def checkCollision (st : Store) (i : ℕ) : Store :=
  match st.entities[i]? with
  | none => st
  | some ent =>
    match (st.byElem.get (enemyElement ent.element)).find? (hits st ent.pos) with
    | none => st
    | some j =>
      match st.entities[j]? with
      | none => st
      | some enemy => changeEntityElement st i enemy.element

/-- One motion-integrator step applied in place to the entity at index `i`. -/
def updateEntityAt (st : Store) (i : ℕ) : Store :=
  match st.entities[i]? with
  | none => st
  | some ent => { st with entities := st.entities.set i (updateEntity width height ENTITY_SIZE ent) }

/-- The body of the `update()` loop for one entity:
`updateEntity(entity); checkCollision(entity);`. -/
def stepEntity (st : Store) (i : ℕ) : Store :=
  checkCollision (updateEntityAt st i) i

/-- `update()` (one tick): iterate the canonical list once, integrating and
then resolving collisions for each entity in order.  The list's length is
fixed during a tick, so iteration is over the indices `0, …, n-1`. -/
def update (st : Store) : Store :=
  (List.range st.entities.length).foldl stepEntity st

/-- One random draw consumed by `generateEntities`: the direction angle
(as its cosine/sine pair) and the raw `Math.random()` draws for the
radial offset (`us`) and the speed factor (`u`). -/
structure SpawnDraw : Type where
  dc : ℚ
  ds : ℚ
  us : ℚ
  u : ℚ
deriving DecidableEq, Repr

/-- `generateEntities(around, spread, count, element)`: `count` is the
length of `draws`; each iteration draws a direction and a radial offset
`s = us * spread`, spawns at `around + s·(dc, ds)` and reuses the same
direction for the velocity. -/
def generateEntities (st : Store) (around : ℚ × ℚ) (spread : ℚ)
    (draws : List SpawnDraw) (element : Element) : Store :=
  draws.foldl
    (fun s d =>
      createEntity s (around.1 + d.dc * (d.us * spread), around.2 + d.ds * (d.us * spread))
        d.dc d.ds d.u element)
    st

/-- An externally triggered operation on the store: a frame-driver tick or
a spawn (`createEntity`, as performed by the click handler or
`generateEntities`). -/
inductive Op : Type
  | tick
  | spawn (pos : ℚ × ℚ) (dc ds u : ℚ) (element : Element)

def applyOp (st : Store) : Op → Store
  | .tick => update st
  | .spawn pos dc ds u e => createEntity st pos dc ds u e

def applyOps (st : Store) (ops : List Op) : Store :=
  ops.foldl applyOp st

/-- The kind field of the entity at index `i`, when live. -/
def elemAt? (st : Store) (j : ℕ) : Option Element :=
  (st.entities[j]?).map Entity.element

/-- The store's partition invariant: each kind-collection is duplicate-free
and holds exactly the indices of the live entities of that kind. -/
def Invariant (st : Store) : Prop :=
  ∀ e : Element, (st.byElem.get e).Nodup ∧
    ∀ j : ℕ, j ∈ st.byElem.get e ↔ elemAt? st j = some e

/-- A bounded, decidable reformulation of `Invariant` for concrete stores. -/
def InvariantB (st : Store) : Prop :=
  ∀ e : Element, (st.byElem.get e).Nodup ∧
    (∀ j ∈ st.byElem.get e, j < st.entities.length) ∧
    ∀ j < st.entities.length, (j ∈ st.byElem.get e ↔ elemAt? st j = some e)

instance : DecidablePred InvariantB := by
  intro st
  unfold InvariantB elemAt?
  infer_instance

theorem elemAt?_eq_none_of_le {st : Store} {j : ℕ} (h : st.entities.length ≤ j) :
    elemAt? st j = none := by
  simp [elemAt?, List.getElem?_eq_none h]

theorem invariant_of_b {st : Store} (h : InvariantB st) : Invariant st := by
  intro e
  obtain ⟨hnd, hlt, hiff⟩ := h e
  refine ⟨hnd, fun j => ?_⟩
  by_cases hj : j < st.entities.length
  · exact hiff j hj
  · constructor
    · intro hm
      exact absurd (hlt j hm) hj
    · intro hm
      rw [elemAt?_eq_none_of_le (Nat.le_of_not_lt hj)] at hm
      exact absurd hm (by simp)

/-! ### Basic lemmas about the store operations -/

theorem ByElement.get_set (b : ByElement) (e e' : Element) (l : List ℕ) :
    (b.set e l).get e' = if e' = e then l else b.get e' := by
  cases e <;> cases e' <;> simp [ByElement.set, ByElement.get]

theorem ByElement.get_set_self (b : ByElement) (e : Element) (l : List ℕ) :
    (b.set e l).get e = l := by
  simp [ByElement.get_set]

theorem ByElement.get_set_ne (b : ByElement) {e e' : Element} (h : e' ≠ e) (l : List ℕ) :
    (b.set e l).get e' = b.get e' := by
  simp [ByElement.get_set, h]

theorem length_createEntity (st : Store) (pos : ℚ × ℚ) (dc ds u : ℚ) (e : Element) :
    (createEntity st pos dc ds u e).entities.length = st.entities.length + 1 := by
  simp [createEntity]

theorem length_changeEntityElement (st : Store) (i : ℕ) (e : Element) :
    (changeEntityElement st i e).entities.length = st.entities.length := by
  unfold changeEntityElement
  split <;> simp

theorem length_checkCollision (st : Store) (i : ℕ) :
    (checkCollision st i).entities.length = st.entities.length := by
  unfold checkCollision
  repeat' split
  all_goals simp [length_changeEntityElement]

theorem length_updateEntityAt (st : Store) (i : ℕ) :
    (updateEntityAt st i).entities.length = st.entities.length := by
  unfold updateEntityAt
  split <;> simp

theorem length_stepEntity (st : Store) (i : ℕ) :
    (stepEntity st i).entities.length = st.entities.length := by
  rw [stepEntity, length_checkCollision, length_updateEntityAt]

theorem length_foldl_stepEntity (l : List ℕ) :
    ∀ st : Store, (l.foldl stepEntity st).entities.length = st.entities.length := by
  induction l with
  | nil => intro st; rfl
  | cons i l ih => intro st; rw [List.foldl_cons, ih, length_stepEntity]

theorem length_update (st : Store) : (update st).entities.length = st.entities.length :=
  length_foldl_stepEntity _ st

/-- The element field is untouched by the motion integrator. -/
theorem element_updateEntity (w h r : ℚ) (ent : Entity) :
    (updateEntity w h r ent).element = ent.element := rfl

theorem elemAt?_updateEntityAt (st : Store) (i j : ℕ) :
    elemAt? (updateEntityAt st i) j = elemAt? st j := by
  unfold updateEntityAt
  split
  · rfl
  · rename_i ent hent
    simp only [elemAt?]
    by_cases hji : i = j
    · subst hji
      rw [List.getElem?_set_self (List.getElem?_eq_some.mp hent).1, hent]
      rfl
    · rw [List.getElem?_set_ne hji]

theorem posvel_updateEntityAt_ne (st : Store) {i j : ℕ} (h : j ≠ i) :
    (updateEntityAt st i).entities[j]? = st.entities[j]? := by
  unfold updateEntityAt
  split
  · rfl
  · exact List.getElem?_set_ne (fun hh => h hh.symm)

theorem entities_changeEntityElement_ne (st : Store) {i j : ℕ} (h : j ≠ i) (e : Element) :
    (changeEntityElement st i e).entities[j]? = st.entities[j]? := by
  unfold changeEntityElement
  split
  · rfl
  · exact List.getElem?_set_ne (fun hh => h hh.symm)

theorem elemAt?_changeEntityElement_self {st : Store} {i : ℕ} {ent : Entity}
    (hent : st.entities[i]? = some ent) (e : Element) :
    elemAt? (changeEntityElement st i e) i = some e := by
  simp only [changeEntityElement, hent, elemAt?]
  rw [List.getElem?_set_self (List.getElem?_eq_some.mp hent).1]
  rfl

theorem elemAt?_changeEntityElement_ne (st : Store) {i j : ℕ} (h : j ≠ i) (e : Element) :
    elemAt? (changeEntityElement st i e) j = elemAt? st j := by
  simp only [elemAt?, entities_changeEntityElement_ne st h]

theorem elemAt?_eq_some_iff {st : Store} {j : ℕ} {e : Element} :
    elemAt? st j = some e ↔ ∃ ent, st.entities[j]? = some ent ∧ ent.element = e := by
  simp [elemAt?, Option.map_eq_some']

theorem Invariant.nodup {st : Store} (hinv : Invariant st) (e : Element) :
    (st.byElem.get e).Nodup := (hinv e).1

theorem Invariant.mem_iff {st : Store} (hinv : Invariant st) (e : Element) (j : ℕ) :
    j ∈ st.byElem.get e ↔ elemAt? st j = some e := (hinv e).2 j

theorem Invariant.lt_of_mem {st : Store} (hinv : Invariant st) {e : Element} {j : ℕ}
    (h : j ∈ st.byElem.get e) : j < st.entities.length := by
  rcases elemAt?_eq_some_iff.mp ((hinv.mem_iff e j).mp h) with ⟨ent, hent, _⟩
  exact (List.getElem?_eq_some.mp hent).1

theorem Invariant.elem_of_mem {st : Store} (hinv : Invariant st) {e : Element} {j : ℕ}
    (h : j ∈ st.byElem.get e) :
    ∃ ent, st.entities[j]? = some ent ∧ ent.element = e :=
  elemAt?_eq_some_iff.mp ((hinv.mem_iff e j).mp h)

theorem elemAt?_changeEntityElement {st : Store} {i : ℕ} {ent : Entity}
    (hent : st.entities[i]? = some ent) (e : Element) (j : ℕ) :
    elemAt? (changeEntityElement st i e) j = if j = i then some e else elemAt? st j := by
  by_cases hji : j = i
  · subst hji
    simp [elemAt?_changeEntityElement_self hent]
  · simp [elemAt?_changeEntityElement_ne st hji, hji]

theorem invariant_changeEntityElement {st : Store} (hinv : Invariant st) (i : ℕ) (e : Element) :
    Invariant (changeEntityElement st i e) := by
  cases hent : st.entities[i]? with
  | none =>
    unfold changeEntityElement
    rw [hent]
    exact hinv
  | some ent =>
    have hself : elemAt? st i = some ent.element := by
      rw [elemAt?, hent]; rfl
    have hi_mem : i ∈ st.byElem.get ent.element := (hinv.mem_iff _ i).mpr hself
    have hsplice : spliceOut (st.byElem.get ent.element) i =
        (st.byElem.get ent.element).erase i := by
      simp [spliceOut, hi_mem]
    have hby : ∀ e' : Element, (changeEntityElement st i e).byElem.get e' =
        if e' = e then
          (if e = ent.element then (st.byElem.get ent.element).erase i else st.byElem.get e) ++ [i]
        else if e' = ent.element then (st.byElem.get ent.element).erase i
        else st.byElem.get e' := by
      intro e'
      simp only [changeEntityElement, hent, hsplice]
      by_cases h1 : e' = e <;>
        simp [ByElement.get_set, h1]
    have hmem_erase : ∀ j, j ∈ (st.byElem.get ent.element).erase i ↔
        j ≠ i ∧ elemAt? st j = some ent.element := by
      intro j
      rw [List.Nodup.mem_erase_iff (hinv.nodup _), hinv.mem_iff]
    have helem := elemAt?_changeEntityElement hent e
    intro e'
    constructor
    · rw [hby e']
      by_cases h1 : e' = e
      · rw [if_pos h1]
        by_cases h2 : e = ent.element
        · rw [if_pos h2]
          refine List.Nodup.append ((hinv.nodup _).erase i) (List.nodup_singleton i) ?_
          intro a ha hb
          rw [List.mem_singleton] at hb
          subst hb
          exact ((hmem_erase a).mp ha).1 rfl
        · rw [if_neg h2]
          refine List.Nodup.append (hinv.nodup _) (List.nodup_singleton i) ?_
          intro a ha hb
          rw [List.mem_singleton] at hb
          subst hb
          have := (hinv.mem_iff e a).mp ha
          rw [hself] at this
          exact h2 (Option.some_injective _ this).symm
      · rw [if_neg h1]
        by_cases h2 : e' = ent.element
        · rw [if_pos h2]
          exact (hinv.nodup _).erase i
        · rw [if_neg h2]
          exact hinv.nodup e'
    · intro j
      rw [hby e', helem j]
      by_cases h1 : e' = e
      · rw [if_pos h1]
        by_cases h2 : e = ent.element
        · rw [if_pos h2, List.mem_append, List.mem_singleton, hmem_erase j]
          by_cases hji : j = i
          · rw [if_pos hji]
            exact iff_of_true (Or.inr hji) (by rw [h1])
          · rw [if_neg hji]
            constructor
            · rintro (⟨-, hj⟩ | hj)
              · rw [hj, ← h2, ← h1]
              · exact absurd hj hji
            · intro hj
              exact Or.inl ⟨hji, by rw [hj, h1, h2]⟩
        · rw [if_neg h2, List.mem_append, List.mem_singleton, hinv.mem_iff e j]
          by_cases hji : j = i
          · rw [if_pos hji]
            exact iff_of_true (Or.inr hji) (by rw [h1])
          · rw [if_neg hji]
            constructor
            · rintro (hj | hj)
              · rw [hj, h1]
              · exact absurd hj hji
            · intro hj
              exact Or.inl (by rw [hj, h1])
      · rw [if_neg h1]
        by_cases h2 : e' = ent.element
        · rw [if_pos h2, hmem_erase j]
          by_cases hji : j = i
          · rw [if_pos hji]
            refine iff_of_false (fun hh => hh.1 hji) (fun hh => h1 (Option.some_injective _ hh).symm)
          · rw [if_neg hji, h2]
            exact ⟨fun hh => hh.2, fun hh => ⟨hji, hh⟩⟩
        · rw [if_neg h2, hinv.mem_iff e' j]
          by_cases hji : j = i
          · rw [if_pos hji, hji, hself]
            refine iff_of_false (fun hh => h2 (Option.some_injective _ hh).symm)
              (fun hh => h1 (Option.some_injective _ hh).symm)
          · rw [if_neg hji]

theorem elemAt?_createEntity (st : Store) (pos : ℚ × ℚ) (dc ds u : ℚ) (e : Element) (j : ℕ) :
    elemAt? (createEntity st pos dc ds u e) j =
      if j = st.entities.length then some e else elemAt? st j := by
  simp only [createEntity, elemAt?]
  by_cases hj : j = st.entities.length
  · rw [if_pos hj, hj, List.getElem?_append_right (le_refl _), Nat.sub_self]
    rfl
  · rw [if_neg hj]
    rcases Nat.lt_or_ge j st.entities.length with hlt | hge
    · rw [List.getElem?_append, if_pos hlt]
    · have hgt : st.entities.length < j := lt_of_le_of_ne hge (Ne.symm hj)
      rw [List.getElem?_append_right hge,
        List.getElem?_eq_none (by simp only [List.length_singleton]; omega),
        List.getElem?_eq_none (Nat.le_of_lt hgt)]

theorem invariant_createEntity {st : Store} (hinv : Invariant st) (pos : ℚ × ℚ)
    (dc ds u : ℚ) (e : Element) : Invariant (createEntity st pos dc ds u e) := by
  have hby : ∀ e' : Element, (createEntity st pos dc ds u e).byElem.get e' =
      if e' = e then st.byElem.get e ++ [st.entities.length] else st.byElem.get e' := by
    intro e'
    simp [createEntity, ByElement.get_set]
  intro e'
  constructor
  · rw [hby e']
    by_cases h1 : e' = e
    · rw [if_pos h1]
      refine List.Nodup.append (hinv.nodup e) (List.nodup_singleton _) ?_
      intro a ha hb
      rw [List.mem_singleton] at hb
      subst hb
      exact absurd (hinv.lt_of_mem ha) (lt_irrefl _)
    · rw [if_neg h1]
      exact hinv.nodup e'
  · intro j
    rw [hby e', elemAt?_createEntity]
    by_cases hj : j = st.entities.length
    · rw [if_pos hj]
      by_cases h1 : e' = e
      · rw [if_pos h1, List.mem_append, List.mem_singleton]
        exact iff_of_true (Or.inr hj) (by rw [h1])
      · rw [if_neg h1]
        refine iff_of_false (fun hmem => ?_) (fun hh => h1 (Option.some_injective _ hh).symm)
        exact absurd (hinv.lt_of_mem hmem) (by rw [hj]; exact lt_irrefl _)
    · rw [if_neg hj]
      by_cases h1 : e' = e
      · rw [if_pos h1, List.mem_append, List.mem_singleton, hinv.mem_iff e j]
        constructor
        · rintro (hmem | hmem)
          · rw [hmem, h1]
          · exact absurd hmem hj
        · intro hmem
          exact Or.inl (by rw [hmem, h1])
      · rw [if_neg h1]
        exact hinv.mem_iff e' j

theorem invariant_congr {st st' : Store} (hb : st'.byElem = st.byElem)
    (he : ∀ j, elemAt? st' j = elemAt? st j) (hinv : Invariant st) : Invariant st' := by
  intro e
  rw [hb]
  exact ⟨(hinv e).1, fun j => by rw [he j]; exact (hinv e).2 j⟩

theorem byElem_updateEntityAt (st : Store) (i : ℕ) :
    (updateEntityAt st i).byElem = st.byElem := by
  unfold updateEntityAt
  split <;> rfl

theorem invariant_updateEntityAt {st : Store} (hinv : Invariant st) (i : ℕ) :
    Invariant (updateEntityAt st i) :=
  invariant_congr (byElem_updateEntityAt st i) (elemAt?_updateEntityAt st i) hinv

theorem invariant_checkCollision {st : Store} (hinv : Invariant st) (i : ℕ) :
    Invariant (checkCollision st i) := by
  unfold checkCollision
  repeat' split
  any_goals exact hinv
  exact invariant_changeEntityElement hinv i _

theorem invariant_stepEntity {st : Store} (hinv : Invariant st) (i : ℕ) :
    Invariant (stepEntity st i) :=
  invariant_checkCollision (invariant_updateEntityAt hinv i) i

theorem foldl_stepEntity_preserve {P : Store → Prop}
    (hP : ∀ st i, P st → P (stepEntity st i)) :
    ∀ (l : List ℕ) (st : Store), P st → P (l.foldl stepEntity st) := by
  intro l
  induction l with
  | nil => exact fun st h => h
  | cons i l ih => exact fun st h => ih (stepEntity st i) (hP st i h)

theorem invariant_update {st : Store} (hinv : Invariant st) : Invariant (update st) := by
  rw [update]
  exact foldl_stepEntity_preserve (P := Invariant)
    (fun _ i h => invariant_stepEntity h i) _ st hinv

/-! ### Characterization of the collision resolver -/

theorem hits_iff_exists {st : Store} {pos : ℚ × ℚ} {j : ℕ} :
    hits st pos j = true ↔
      ∃ en, st.entities[j]? = some en ∧ sqDist pos en.pos < (ENTITY_SIZE * 2) ^ 2 := by
  unfold hits
  cases h : st.entities[j]? <;> simp

theorem checkCollision_of_invalid {st : Store} {i : ℕ} (h : st.entities[i]? = none) :
    checkCollision st i = st := by
  simp [checkCollision, h]

theorem checkCollision_of_none {st : Store} {i : ℕ} {ent : Entity}
    (hent : st.entities[i]? = some ent)
    (hfind : (st.byElem.get (enemyElement ent.element)).find? (hits st ent.pos) = none) :
    checkCollision st i = st := by
  simp [checkCollision, hent, hfind]

theorem checkCollision_of_some {st : Store} {i : ℕ} {ent : Entity} {j : ℕ} {enemy : Entity}
    (hent : st.entities[i]? = some ent)
    (hfind : (st.byElem.get (enemyElement ent.element)).find? (hits st ent.pos) = some j)
    (hj : st.entities[j]? = some enemy) :
    checkCollision st i = changeEntityElement st i enemy.element := by
  simp [checkCollision, hent, hfind, hj]

theorem enemy_of_find? {st : Store} {ent : Entity} {j : ℕ}
    (hfind : (st.byElem.get (enemyElement ent.element)).find? (hits st ent.pos) = some j) :
    ∃ enemy, st.entities[j]? = some enemy ∧
      sqDist ent.pos enemy.pos < (ENTITY_SIZE * 2) ^ 2 ∧
      j ∈ st.byElem.get (enemyElement ent.element) := by
  have hmem := List.mem_of_find?_eq_some hfind
  obtain ⟨enemy, hj, hdist⟩ := hits_iff_exists.mp (List.find?_some hfind)
  exact ⟨enemy, hj, hdist, hmem⟩

theorem elemAt?_checkCollision_ne (st : Store) {i j : ℕ} (h : j ≠ i) :
    elemAt? (checkCollision st i) j = elemAt? st j := by
  unfold checkCollision
  repeat' split
  any_goals rfl
  exact elemAt?_changeEntityElement_ne st h _

theorem elemAt?_stepEntity_ne (st : Store) {i j : ℕ} (h : j ≠ i) :
    elemAt? (stepEntity st i) j = elemAt? st j := by
  rw [stepEntity, elemAt?_checkCollision_ne _ h, elemAt?_updateEntityAt]

theorem elemAt?_checkCollision_self {st : Store} (hinv : Invariant st) (i : ℕ) :
    elemAt? (checkCollision st i) i = elemAt? st i ∨
      elemAt? (checkCollision st i) i = (elemAt? st i).map enemyElement := by
  cases hent : st.entities[i]? with
  | none =>
    left
    rw [checkCollision_of_invalid hent]
  | some ent =>
    cases hfind : (st.byElem.get (enemyElement ent.element)).find? (hits st ent.pos) with
    | none =>
      left
      rw [checkCollision_of_none hent hfind]
    | some j =>
      obtain ⟨enemy, hj, hdist, hmem⟩ := enemy_of_find? hfind
      right
      rw [checkCollision_of_some hent hfind hj, elemAt?_changeEntityElement_self hent,
        elemAt?, hent]
      obtain ⟨en2, hen2, helem2⟩ := hinv.elem_of_mem hmem
      rw [hj] at hen2
      cases hen2
      rw [helem2]
      rfl

theorem elemAt?_stepEntity_self {st : Store} (hinv : Invariant st) (i : ℕ) :
    elemAt? (stepEntity st i) i = elemAt? st i ∨
      elemAt? (stepEntity st i) i = (elemAt? st i).map enemyElement := by
  rw [stepEntity]
  have h1 := elemAt?_checkCollision_self (invariant_updateEntityAt hinv i) i
  rwa [elemAt?_updateEntityAt] at h1

theorem elemAt?_foldl_not_mem :
    ∀ (l : List ℕ) (st : Store) (i : ℕ), i ∉ l →
      elemAt? (l.foldl stepEntity st) i = elemAt? st i := by
  intro l
  induction l with
  | nil => intro st i _; rfl
  | cons k l ih =>
    intro st i hi
    rw [List.foldl_cons, ih _ _ (fun hh => hi (List.mem_cons_of_mem _ hh)),
      elemAt?_stepEntity_ne _ (fun hh => hi (by rw [hh]; exact List.mem_cons_self _ _))]

theorem invariant_foldl_stepEntity {st : Store} (hinv : Invariant st) (l : List ℕ) :
    Invariant (l.foldl stepEntity st) :=
  foldl_stepEntity_preserve (P := Invariant) (fun _ i h => invariant_stepEntity h i) l st hinv

theorem elemAt?_foldl_range (n : ℕ) :
    ∀ st : Store, Invariant st → ∀ i : ℕ,
      elemAt? ((List.range n).foldl stepEntity st) i = elemAt? st i ∨
        elemAt? ((List.range n).foldl stepEntity st) i = (elemAt? st i).map enemyElement := by
  induction n with
  | zero => intro st _ i; left; rfl
  | succ n ih =>
    intro st hinv i
    rw [List.range_succ, List.foldl_append, List.foldl_cons, List.foldl_nil]
    have hinv' : Invariant ((List.range n).foldl stepEntity st) :=
      invariant_foldl_stepEntity hinv _
    by_cases hi : i = n
    · rw [hi]
      have hpre : elemAt? ((List.range n).foldl stepEntity st) n = elemAt? st n :=
        elemAt?_foldl_not_mem _ _ _ (by simp)
      rcases elemAt?_stepEntity_self hinv' n with h | h
      · left; rw [h, hpre]
      · right; rw [h, hpre]
    · rw [elemAt?_stepEntity_ne _ hi]
      exact ih st hinv i

theorem byElem_checkCollision_empty {st : Store} (hinv : Invariant st)
    {K : Element} (hK : st.byElem.get K = []) (i : ℕ) :
    (checkCollision st i).byElem.get K = [] := by
  cases hent : st.entities[i]? with
  | none => rw [checkCollision_of_invalid hent]; exact hK
  | some ent =>
    cases hfind : (st.byElem.get (enemyElement ent.element)).find? (hits st ent.pos) with
    | none => rw [checkCollision_of_none hent hfind]; exact hK
    | some j =>
      obtain ⟨enemy, hj, hdist, hmem⟩ := enemy_of_find? hfind
      rw [checkCollision_of_some hent hfind hj]
      obtain ⟨en2, hen2, helem2⟩ := hinv.elem_of_mem hmem
      rw [hj] at hen2
      cases hen2
      have hKC : K ≠ enemy.element := by
        intro hh
        rw [helem2] at hh
        rw [← hh, hK] at hmem
        exact absurd hmem (List.not_mem_nil _)
      have hio : i ∈ st.byElem.get ent.element :=
        (hinv.mem_iff _ i).mpr (by rw [elemAt?, hent]; rfl)
      have hKo : K ≠ ent.element := by
        intro hh
        rw [← hh, hK] at hio
        exact absurd hio (List.not_mem_nil _)
      simp only [changeEntityElement, hent]
      rw [ByElement.get_set_ne _ hKC, ByElement.get_set_ne _ hKo]
      exact hK

theorem update_preserves_empty {st : Store} (hinv : Invariant st) {K : Element}
    (hK : st.byElem.get K = []) : (update st).byElem.get K = [] := by
  rw [update]
  have h := foldl_stepEntity_preserve (P := fun s => Invariant s ∧ s.byElem.get K = [])
    (fun s i hPs => ⟨invariant_stepEntity hPs.1 i, by
      rw [stepEntity]
      exact byElem_checkCollision_empty (invariant_updateEntityAt hPs.1 i)
        (by rw [byElem_updateEntityAt]; exact hPs.2) i⟩)
    (List.range st.entities.length) st ⟨hinv, hK⟩
  exact h.2

/-! ### Frame lemmas: position and velocity views -/

def posAt? (st : Store) (j : ℕ) : Option (ℚ × ℚ) := (st.entities[j]?).map Entity.pos

def velAt? (st : Store) (j : ℕ) : Option (ℚ × ℚ) := (st.entities[j]?).map Entity.vel

theorem posAt?_changeEntityElement (st : Store) (i : ℕ) (e : Element) (j : ℕ) :
    posAt? (changeEntityElement st i e) j = posAt? st j := by
  unfold posAt?
  by_cases hji : j = i
  · subst hji
    cases hent : st.entities[j]? with
    | none => simp [changeEntityElement, hent]
    | some ent =>
      simp only [changeEntityElement, hent]
      rw [List.getElem?_set_self (List.getElem?_eq_some.mp hent).1]
      rfl
  · rw [entities_changeEntityElement_ne st hji]

theorem velAt?_changeEntityElement (st : Store) (i : ℕ) (e : Element) (j : ℕ) :
    velAt? (changeEntityElement st i e) j = velAt? st j := by
  unfold velAt?
  by_cases hji : j = i
  · subst hji
    cases hent : st.entities[j]? with
    | none => simp [changeEntityElement, hent]
    | some ent =>
      simp only [changeEntityElement, hent]
      rw [List.getElem?_set_self (List.getElem?_eq_some.mp hent).1]
      rfl
  · rw [entities_changeEntityElement_ne st hji]

theorem posAt?_checkCollision (st : Store) (i j : ℕ) :
    posAt? (checkCollision st i) j = posAt? st j := by
  unfold checkCollision
  repeat' split
  any_goals rfl
  exact posAt?_changeEntityElement st i _ j

theorem velAt?_checkCollision (st : Store) (i j : ℕ) :
    velAt? (checkCollision st i) j = velAt? st j := by
  unfold checkCollision
  repeat' split
  any_goals rfl
  exact velAt?_changeEntityElement st i _ j

/-! ### Spawner unfolding lemmas -/

theorem generateEntities_nil (st : Store) (around : ℚ × ℚ) (spread : ℚ) (e : Element) :
    generateEntities st around spread [] e = st := rfl

theorem generateEntities_cons (st : Store) (around : ℚ × ℚ) (spread : ℚ)
    (d : SpawnDraw) (draws : List SpawnDraw) (e : Element) :
    generateEntities st around spread (d :: draws) e =
      generateEntities
        (createEntity st (around.1 + d.dc * (d.us * spread), around.2 + d.ds * (d.us * spread))
          d.dc d.ds d.u e) around spread draws e := rfl

theorem length_generateEntities (st : Store) (around : ℚ × ℚ) (spread : ℚ)
    (draws : List SpawnDraw) (e : Element) :
    (generateEntities st around spread draws e).entities.length =
      st.entities.length + draws.length := by
  induction draws generalizing st with
  | nil => rfl
  | cons d draws ih =>
    rw [generateEntities_cons, ih, length_createEntity, List.length_cons]
    omega

/-! ### Concrete stores for instantiating the theorems -/

/-- A two-entity store: a rock at (100, 100) and a paper at (101, 100),
both stationary (the spec's concrete dominance scenario). -/
def st1 : Store :=
  { entities := [{ pos := (100, 100), vel := (0, 0), element := .rock },
                 { pos := (101, 100), vel := (0, 0), element := .paper }],
    byElem := { rock := [0], paper := [1], scissors := [] } }

theorem invariantB_st1 : InvariantB st1 := by decide

theorem invariant_st1 : Invariant st1 := invariant_of_b invariantB_st1

/-- The spec's concrete reflection scenario: one entity at (5, 200) with
velocity (-1, 0) in the 400×400 arena. -/
def st4 : Store :=
  { entities := [{ pos := (5, 200), vel := (-1, 0), element := .rock }],
    byElem := { rock := [0], paper := [], scissors := [] } }

/-- General boundary containment for the motion integrator, for any arena
that can contain the entity disc (`r ≤ w - r`, `r ≤ h - r`). -/
theorem boundary_containment_general (w h r : ℚ) (hw : r ≤ w - r) (hh : r ≤ h - r)
    (ent : Entity) :
    r ≤ (updateEntity w h r ent).pos.1 ∧ (updateEntity w h r ent).pos.1 ≤ w - r ∧
      r ≤ (updateEntity w h r ent).pos.2 ∧ (updateEntity w h r ent).pos.2 ≤ h - r := by
  simp only [updateEntity, clamp]
  refine ⟨?_, ?_, ?_, ?_⟩
  · split_ifs with hc
    · exact le_max_left _ _
    · push_neg at hc
      exact hc.1
  · split_ifs with hc
    · exact max_le hw (min_le_left _ _)
    · push_neg at hc
      exact hc.2
  · split_ifs with hc
    · exact le_max_left _ _
    · push_neg at hc
      exact hc.1
  · split_ifs with hc
    · exact max_le hh (min_le_left _ _)
    · push_neg at hc
      exact hc.2

/-! ### The claims -/

/-- Claim C1: the partition invariant — the three kind-indexed collections are
pairwise disjoint, their union is exactly the set of live canonical indices, and
every live entity is in exactly the collection matching its kind field — and this
invariant is preserved by `createEntity` (add), `changeEntityElement` (changeKind)
and `update` (tick). -/
theorem partition_invariant (st : Store) (hinv : Invariant st) :
    ((∀ e e' : Element, e ≠ e' → ∀ j : ℕ, j ∈ st.byElem.get e → j ∉ st.byElem.get e') ∧
      (∀ j : ℕ, (∃ e : Element, j ∈ st.byElem.get e) ↔ j < st.entities.length) ∧
      (∀ (j : ℕ) (ent : Entity), st.entities[j]? = some ent →
        j ∈ st.byElem.get ent.element ∧
          ∀ e : Element, j ∈ st.byElem.get e → e = ent.element)) ∧
    (∀ (pos : ℚ × ℚ) (dc ds u : ℚ) (e : Element), Invariant (createEntity st pos dc ds u e)) ∧
    (∀ (i : ℕ) (e : Element), Invariant (changeEntityElement st i e)) ∧
    Invariant (update st) := by
  refine ⟨⟨?_, ?_, ?_⟩, fun pos dc ds u e => invariant_createEntity hinv pos dc ds u e,
    fun i e => invariant_changeEntityElement hinv i e, invariant_update hinv⟩
  · intro e e' hne j hj hj'
    have h1 := (hinv.mem_iff e j).mp hj
    have h2 := (hinv.mem_iff e' j).mp hj'
    rw [h1] at h2
    exact hne (Option.some_injective _ h2)
  · intro j
    constructor
    · rintro ⟨e, hj⟩
      exact hinv.lt_of_mem hj
    · intro hj
      exact ⟨st.entities[j].element,
        (hinv.mem_iff _ j).mpr (by rw [elemAt?, List.getElem?_eq_getElem hj]; rfl)⟩
  · intro j ent hent
    have hm : j ∈ st.byElem.get ent.element :=
      (hinv.mem_iff _ j).mpr (by rw [elemAt?, hent]; rfl)
    refine ⟨hm, fun e hj => ?_⟩
    have h2 := (hinv.mem_iff e j).mp hj
    rw [elemAt?, hent] at h2
    exact (Option.some_injective _ h2).symm

theorem partition_invariant_witness : Invariant (update st1) :=
  (partition_invariant st1 invariant_st1).2.2.2

/-- Claim C2: the collision resolver contract — for an entity of kind A at a live
index, one `checkCollision` pass converts it to the dominator kind C exactly when
some member of the C-collection lies at squared Euclidean distance below `(2r)^2`
(i.e. Euclidean distance strictly below `2r`); the conversion uses the first such
member in the collection's insertion order and the scan stops there, and when no
member is in range (in particular when the collection is empty) the store is
completely unchanged. -/
theorem collision_resolver_contract (st : Store) (hinv : Invariant st) (i : ℕ) (ent : Entity)
    (hent : st.entities[i]? = some ent) :
    ((∃ j ∈ st.byElem.get (enemyElement ent.element), ∃ en,
        st.entities[j]? = some en ∧ sqDist ent.pos en.pos < (ENTITY_SIZE * 2) ^ 2) →
      elemAt? (checkCollision st i) i = some (enemyElement ent.element) ∧
      ∃ j l1 l2, (st.byElem.get (enemyElement ent.element)).find? (hits st ent.pos) = some j ∧
        st.byElem.get (enemyElement ent.element) = l1 ++ j :: l2 ∧
        (∀ k ∈ l1, hits st ent.pos k = false) ∧ hits st ent.pos j = true ∧
        checkCollision st i = changeEntityElement st i (enemyElement ent.element)) ∧
    ((∀ j ∈ st.byElem.get (enemyElement ent.element), ∀ en, st.entities[j]? = some en →
        ¬(sqDist ent.pos en.pos < (ENTITY_SIZE * 2) ^ 2)) →
      checkCollision st i = st) := by
  constructor
  · rintro ⟨j0, hj0mem, en0, hen0, hdist0⟩
    have hsome : ((st.byElem.get (enemyElement ent.element)).find? (hits st ent.pos)).isSome := by
      rw [List.find?_isSome]
      exact ⟨j0, hj0mem, hits_iff_exists.mpr ⟨en0, hen0, hdist0⟩⟩
    obtain ⟨j, hfind⟩ := Option.isSome_iff_exists.mp hsome
    obtain ⟨enemy, hj, hdist, hmem⟩ := enemy_of_find? hfind
    obtain ⟨en2, hen2, helem2⟩ := hinv.elem_of_mem hmem
    rw [hj] at hen2
    cases hen2
    have hchange : checkCollision st i = changeEntityElement st i (enemyElement ent.element) := by
      rw [checkCollision_of_some hent hfind hj, helem2]
    refine ⟨by rw [hchange, elemAt?_changeEntityElement_self hent], ?_⟩
    obtain ⟨hp, l1, l2, hsplit, hprev⟩ := List.find?_eq_some.mp hfind
    exact ⟨j, l1, l2, hfind, hsplit, fun k hk => by simpa using hprev k hk, hp, hchange⟩
  · intro hno
    cases hfind : (st.byElem.get (enemyElement ent.element)).find? (hits st ent.pos) with
    | none => exact checkCollision_of_none hent hfind
    | some j =>
      obtain ⟨enemy, hj, hdist, hmem⟩ := enemy_of_find? hfind
      exact absurd hdist (hno j hmem enemy hj)

theorem collision_resolver_contract_witness :
    elemAt? (checkCollision st1 0) 0 = some (enemyElement Element.rock) := by
  have h := collision_resolver_contract st1 invariant_st1 0
    { pos := (100, 100), vel := (0, 0), element := Element.rock } (by simp [st1])
  refine (h.1 ⟨1, by simp [st1, enemyElement, ByElement.get],
    ⟨{ pos := (101, 100), vel := (0, 0), element := Element.paper }, by simp [st1],
      by norm_num [sqDist, ENTITY_SIZE]⟩⟩).1

/-- Claim C3: boundary containment — after one motion-integrator step with the
program's arena bounds (400 × 400) and half-extent r = ENTITY_SIZE = 10, every
entity's position satisfies `r ≤ x ≤ width - r` and `r ≤ y ≤ height - r`,
whatever its starting position and velocity. -/
theorem boundary_containment (ent : Entity) :
    ENTITY_SIZE ≤ (updateEntity width height ENTITY_SIZE ent).pos.1 ∧
      (updateEntity width height ENTITY_SIZE ent).pos.1 ≤ width - ENTITY_SIZE ∧
      ENTITY_SIZE ≤ (updateEntity width height ENTITY_SIZE ent).pos.2 ∧
      (updateEntity width height ENTITY_SIZE ent).pos.2 ≤ height - ENTITY_SIZE :=
  boundary_containment_general width height ENTITY_SIZE
    (by norm_num [width, ENTITY_SIZE]) (by norm_num [height, ENTITY_SIZE]) ent

/-- Claim C4: concrete reflection scenario — in the 400×400 arena with r = 10, a
single entity at (5, 200) with velocity (-1, 0) has, after one `update()` tick,
position.x = 10 and velocity.x = 1, with position.y = 200 and velocity.y = 0
unchanged (and its kind untouched). -/
theorem reflection_scenario :
    (update st4).entities = [{ pos := (10, 200), vel := (1, 0), element := Element.rock }] := by
  norm_num [update, st4, List.range, List.range.loop, stepEntity, updateEntityAt, updateEntity,
    checkCollision, hits, clamp, enemyElement, width, height, ENTITY_SIZE, ByElement.get]

/-- Claim C5: no self or partial dominance — under the partition invariant, a
tick changes an entity's kind only to the unique dominator of its current kind
(never because of a same-kind or dominated-kind neighbour), and the dominator
assignment is the fixed cycle: rock is beaten by paper, paper by scissors,
scissors by rock. -/
theorem conversion_only_to_dominator (st : Store) (hinv : Invariant st) (i : ℕ) :
    (elemAt? (update st) i = elemAt? st i ∨
      elemAt? (update st) i = (elemAt? st i).map enemyElement) ∧
    enemyElement Element.rock = Element.paper ∧
    enemyElement Element.paper = Element.scissors ∧
    enemyElement Element.scissors = Element.rock := by
  refine ⟨?_, rfl, rfl, rfl⟩
  rw [update]
  exact elemAt?_foldl_range _ st hinv i

theorem conversion_only_to_dominator_witness :
    (elemAt? (update st1) 0 = elemAt? st1 0 ∨
      elemAt? (update st1) 0 = (elemAt? st1 0).map enemyElement) ∧
    enemyElement Element.rock = Element.paper ∧
    enemyElement Element.paper = Element.scissors ∧
    enemyElement Element.scissors = Element.rock :=
  conversion_only_to_dominator st1 invariant_st1 0

/-- Claim C6: monotonic population — a tick never changes the canonical list's
length (it allocates and removes nothing), each spawn grows it by exactly one,
and over any sequence of ticks and spawns the length never decreases. -/
theorem monotonic_population :
    (∀ st : Store, (update st).entities.length = st.entities.length) ∧
    (∀ (st : Store) (pos : ℚ × ℚ) (dc ds u : ℚ) (e : Element),
      (createEntity st pos dc ds u e).entities.length = st.entities.length + 1) ∧
    (∀ (st : Store) (ops : List Op),
      st.entities.length ≤ (applyOps st ops).entities.length) := by
  refine ⟨length_update, length_createEntity, ?_⟩
  intro st ops
  induction ops generalizing st with
  | nil => exact le_refl _
  | cons op ops ih =>
    have h1 : st.entities.length ≤ (applyOp st op).entities.length := by
      cases op with
      | tick => rw [applyOp, length_update]
      | spawn pos dc ds u e => rw [applyOp, length_createEntity]; exact Nat.le_succ _
    exact le_trans h1 (ih (applyOp st op))

/-- Claim C7: frame condition of collision resolution — a `checkCollision` pass
(with any `changeEntityElement` it triggers) never changes any entity's position
or velocity, and changes no entity's kind other than possibly the scanned
entity's own. -/
theorem collision_frame (st : Store) (i j : ℕ) :
    posAt? (checkCollision st i) j = posAt? st j ∧
    velAt? (checkCollision st i) j = velAt? st j ∧
    (j ≠ i → elemAt? (checkCollision st i) j = elemAt? st j) :=
  ⟨posAt?_checkCollision st i j, velAt?_checkCollision st i j,
    fun h => elemAt?_checkCollision_ne st h⟩

theorem collision_frame_witness :
    posAt? (checkCollision st1 0) 1 = posAt? st1 1 ∧
    velAt? (checkCollision st1 0) 1 = velAt? st1 1 ∧
    elemAt? (checkCollision st1 0) 1 = elemAt? st1 1 := by
  obtain ⟨h1, h2, h3⟩ := collision_frame st1 0 1
  exact ⟨h1, h2, h3 (by decide)⟩

/-- Claim C8: spawner contract — `createEntity` appends exactly one entity whose
velocity is the given direction unit vector scaled by
`ENTITY_SPEED * (u * 0.5 + 0.5)`, a factor in `[ENTITY_SPEED/2, ENTITY_SPEED)`
for a draw `u ∈ [0, 1)`; `generateEntities` performs exactly one `createEntity`
per draw, at a position offset from the centre by `us * spread ∈ [0, spread)`
along the drawn direction, reusing that direction for the velocity; and an empty
draw list spawns nothing. -/
theorem spawner_contract :
    (∀ (st : Store) (pos : ℚ × ℚ) (dc ds u : ℚ) (e : Element),
      (createEntity st pos dc ds u e).entities = st.entities ++
        [{ pos := pos,
           vel := (dc * (ENTITY_SPEED * (u * (1 / 2) + 1 / 2)),
                   ds * (ENTITY_SPEED * (u * (1 / 2) + 1 / 2))),
           element := e }]) ∧
    (∀ u : ℚ, 0 ≤ u → u < 1 →
      ENTITY_SPEED * (1 / 2) ≤ ENTITY_SPEED * (u * (1 / 2) + 1 / 2) ∧
      ENTITY_SPEED * (u * (1 / 2) + 1 / 2) < ENTITY_SPEED) ∧
    (∀ (st : Store) (around : ℚ × ℚ) (spread : ℚ) (e : Element),
      generateEntities st around spread [] e = st) ∧
    (∀ (st : Store) (around : ℚ × ℚ) (spread : ℚ) (d : SpawnDraw) (draws : List SpawnDraw)
        (e : Element),
      generateEntities st around spread (d :: draws) e =
        generateEntities
          (createEntity st
            (around.1 + d.dc * (d.us * spread), around.2 + d.ds * (d.us * spread))
            d.dc d.ds d.u e) around spread draws e) ∧
    (∀ (st : Store) (around : ℚ × ℚ) (spread : ℚ) (draws : List SpawnDraw) (e : Element),
      (generateEntities st around spread draws e).entities.length =
        st.entities.length + draws.length) ∧
    (∀ us spread : ℚ, 0 ≤ us → us < 1 → 0 < spread →
      0 ≤ us * spread ∧ us * spread < spread) := by
  refine ⟨fun st pos dc ds u e => rfl, ?_, generateEntities_nil, generateEntities_cons,
    length_generateEntities, ?_⟩
  · intro u h0 h1
    rw [ENTITY_SPEED]
    constructor <;> nlinarith
  · intro us spread h0 h1 hsp
    exact ⟨mul_nonneg h0 (le_of_lt hsp), by nlinarith⟩

theorem spawner_contract_witness :
    (ENTITY_SPEED * (1 / 2) ≤ ENTITY_SPEED * ((0 : ℚ) * (1 / 2) + 1 / 2) ∧
      ENTITY_SPEED * ((0 : ℚ) * (1 / 2) + 1 / 2) < ENTITY_SPEED) ∧
    (0 ≤ (1 / 2 : ℚ) * 1 ∧ (1 / 2 : ℚ) * 1 < 1) := by
  obtain ⟨-, h2, -, -, -, h6⟩ := spawner_contract
  exact ⟨h2 0 (by norm_num) (by norm_num),
    h6 (1 / 2) 1 (by norm_num) (by norm_num) (by norm_num)⟩

/-- Claim C9: eliminated kinds stay eliminated — under the partition invariant,
if a kind's collection is empty before a tick, it is still empty after it; only
an explicit spawn can repopulate a kind. -/
theorem eliminated_kind_stays_empty (st : Store) (hinv : Invariant st) (K : Element)
    (hK : st.byElem.get K = []) : (update st).byElem.get K = [] :=
  update_preserves_empty hinv hK

theorem eliminated_kind_stays_empty_witness :
    (update st1).byElem.get Element.scissors = [] :=
  eliminated_kind_stays_empty st1 invariant_st1 Element.scissors (by decide)

/-- Claim C10: `update()` is deterministic — it takes no random input (in this
embedding every `Math.random()` draw is an explicit argument, and `update` has
none), so from equal stores it produces equal stores. -/
theorem update_deterministic (s t : Store) (h : s = t) : update s = update t :=
  congrArg update h

theorem update_deterministic_witness : update st1 = update st1 :=
  update_deterministic st1 st1 rfl

end RPS
